import Mathlib

/-!
Shallow embedding of the causal profiler (src/src/runtime/causalprof/causal.go)
and of the result-reading tool (src/unnamed/part_000, package main), together
with proofs settling the frozen claims about them.

Modelling conventions:
* Go machine integers are modelled as Nat / Int; Go integer division on int64
  truncates toward zero, which is Int.tdiv.
* The profiler's randomness (rand.Intn(2) and rand.Perm(20)) is an explicit
  input: a coin stream for Intn and an arbitrary permutation of List.range 20
  for Perm.
* Wall-clock time and the delay actuator counter are explicit numeric inputs.
* Text is modelled as List Char, a file as List (List Char) (its lines).
-/

namespace Causalprof

/-! ## Experiment scheduler (causal.go lines 74-77, 126-141) -/

/-- Per-call-site experiment state (Go struct `experiment`): whether the
zero-delay baseline has run, and the not-yet-tried permuted values
(`rand.Perm(20)` produces a permutation of 0..19; the scheduler returns
element+1 as the slowdown level). -/
structure Experiment where
  hasNull : Bool
  remaining : List Nat
deriving DecidableEq, Repr

/-- State created when a call site is first seen (causal.go lines 89-91):
`hasNull` is false and `remaining` is the fresh random permutation. -/
def newExperiment (perm : List Nat) : Experiment :=
  { hasNull := false, remaining := perm }

/-- `selectExperiment` (causal.go lines 126-141).  The Go code consults
`rand.Intn(2) == 1` only when `!expinfo.hasNull` (short-circuit `&&`);
`coin` stands for that random draw. -/
def selectExperiment (coin : Bool) (e : Experiment) : Int × Experiment :=
  if !e.hasNull && coin then
    (0, { e with hasNull := true })
  else
    match e.remaining with
    | [] =>
      if !e.hasNull then (0, { e with hasNull := true })
      else (-1, e)
    | r :: rest => ((r : Int) + 1, { e with remaining := rest })

/-- Repeatedly consult the scheduler for one call site, collecting the
returned levels until the first exhausted sentinel (-1).  `coins i` is the
i-th value of `rand.Intn(2) == 1`; a coin is consumed exactly when the Go
code evaluates `rand.Intn(2)`, i.e. when `hasNull` is still false.
`fuel` bounds the number of consultations. -/
def runSession : Nat → Experiment → (Nat → Bool) → Nat → List Int
  | 0, _, _, _ => []
  | Nat.succ fuel, e, coins, i =>
    let usesCoin := !e.hasNull
    let r := selectExperiment (coins i) e
    if r.1 = -1 then []
    else r.1 :: runSession fuel r.2 coins (if usesCoin then i + 1 else i)

/-! ## Session controller (causal.go lines 19-45) -/

/-- The observable profiler state touched by `Start` (causal.go lines 19-23,
27-45): the `cpu.profiling` flag, whether `cpu.done` has been allocated,
the CPU-profile sample rate last set, and whether the `profileWriter`
background loop has been launched. -/
structure CpuState where
  profiling : Bool
  doneMade : Bool
  sampleRate : Nat
  writerRunning : Bool
deriving DecidableEq, Repr

/-- causal.go line 47. -/
def profilingHz : Nat := 1000

/-- causal.go line 48: `delayPerPercent = 1e7 / profilingHz` (exact: 10000). -/
def delayPerPercent : Nat := 10 ^ 7 / profilingHz

/-- `Start` (causal.go lines 27-45).  `pprofActive` is the value of
`pprof.IsCPUProfiling()`.  Returns the error (if any) and the new state. -/
def start (pprofActive : Bool) (s : CpuState) : Except String Unit × CpuState :=
  let s1 := if s.doneMade then s else { s with doneMade := true }
  if s1.profiling then
    (Except.error ("causal profiling already in use"), s1)
  else if pprofActive then
    (Except.error ("cpu profiling already in use"), s1)
  else
    (Except.ok (),
      { s1 with profiling := true, sampleRate := profilingHz, writerRunning := true })

/-! ## Progress accumulator (causal.go lines 148-189) -/

/-- The package-level progress counters (`progress`, `progresstime`). -/
structure ProgressState where
  progress : Int
  progresstime : Int
deriving DecidableEq, Repr

/-- `resetProgress` (causal.go lines 152-157). -/
def resetProgress : ProgressState :=
  { progress := 0, progresstime := 0 }

/-- The `Progress` token (causal.go lines 159-162): start timestamp and
the delay-actuator counter value captured at `StartProgress`. -/
structure Progress where
  startTime : Int
  startDelay : Int
deriving DecidableEq, Repr

/-- `StartProgress` (causal.go lines 164-169): `now` is `time.Now()` and
`delayCounter` is `runtime_causalProfileGetDelay()` (a monotonically
accumulating total, so modelled as Int without wraparound). -/
def StartProgress (now delayCounter : Int) : Progress :=
  { startTime := now, startDelay := delayCounter }

/-- `Progress.Stop` (causal.go lines 171-179): elapsed wall time minus the
increase of the accumulated-delay counter since `StartProgress`, added to
the totals together with one unit. -/
def Progress.Stop (p : Progress) (now delayCounter : Int) (s : ProgressState) :
    ProgressState :=
  let t := now - p.startTime
  let d := delayCounter - p.startDelay
  { progress := s.progress + 1, progresstime := s.progresstime + (t - d) }

/-- `compareprogress` (causal.go lines 181-189): -1 when no unit completed,
otherwise the truncated (Go int64) mean of the adjusted durations. -/
def compareprogress (s : ProgressState) : Int :=
  if s.progress = 0 then -1 else Int.tdiv s.progresstime s.progress

/-! ## Result emitter (causal.go lines 94-120) -/

/-- causal.go line 99: `delaypersample = uint64(exp) * (5 * delayPerPercent)`. -/
def delaypersample (lvl : Nat) : Nat := lvl * (5 * delayPerPercent)

/-- One emitted experiment record: program counter, the percentage printed
(`delaypersample/delayPerPercent`), and the measured ns/op (`diff`). -/
structure ExperimentRecord where
  pc : Nat
  percentage : Nat
  ns : Int
deriving DecidableEq, Repr

/-- The emission decision of one `profileWriter` iteration (causal.go lines
110-120): after the measurement window, `diff := compareprogress()`; if it
is -1 the iteration `continue`s with no output, otherwise the record is
written. -/
def writerEmit (pc : Nat) (lvl : Nat) (s : ProgressState) : Option ExperimentRecord :=
  let diff := compareprogress s
  if diff = -1 then none
  else some { pc := pc, percentage := delaypersample lvl / delayPerPercent, ns := diff }

/-! ## Text formatting (fmt verbs used by causal.go lines 117-120) -/

/-- Lowercase hex digit character, as produced by the `%x`/`%#x` verbs. -/
def hexDigitChar (d : Nat) : Char :=
  if d < 10 then Char.ofNat (48 + d) else Char.ofNat (87 + d)

/-- Decimal digit character. -/
def decDigitChar (d : Nat) : Char := Char.ofNat (48 + d)

/-- The digits of `%x` for a natural number: most-significant first,
a single 0 for zero. -/
def natToHexChars (n : Nat) : List Char :=
  if n = 0 then [decDigitChar 0]
  else ((Nat.digits 16 n).reverse.map hexDigitChar)

/-- The digits of `%d` for a natural number. -/
def natToDecChars (n : Nat) : List Char :=
  if n = 0 then [decDigitChar 0]
  else ((Nat.digits 10 n).reverse.map decDigitChar)

/-- `%d` of a (signed) integer: minus sign then the decimal magnitude. -/
def intToDecChars (n : Int) : List Char :=
  if n < 0 then '-' :: natToDecChars n.natAbs else natToDecChars n.toNat

/-- `%#x` of an unsigned value: a `0x` prefixed lowercase hex literal. -/
def natToHexLit (n : Nat) : List Char := '0' :: 'x' :: natToHexChars n

/-- The four lines emitted for one record (causal.go lines 115-120): three
comment lines (function+location, speedup percentage, ns/op) then the data
line `<hex pc> <percentage> <ns/op>`.  `loc` stands for the text
`%s %s:%d` of the resolved function name and source position, which the
model cannot reproduce (it only matters that the line starts with a
comment marker). -/
def formatRecord (loc : List Char) (r : ExperimentRecord) : List (List Char) :=
  [ '#' :: ' ' :: loc,
    '#' :: (String.toList (" speedup ") ++ natToDecChars r.percentage ++ [Char.ofNat 37]),
    '#' :: ' ' :: (intToDecChars r.ns ++ String.toList ("ns/op")),
    natToHexLit r.pc ++ ' ' :: (natToDecChars r.percentage ++ ' ' :: intToDecChars r.ns) ]

/-! ## The reading tool (src/unnamed/part_000) -/

/-- `strings.Fields`, specialised to the space character (the only
whitespace occurring in emitted data lines): maximal runs of non-space
characters.  `acc` is the reversed current field. -/
def fieldsAux : List Char → List Char → List (List Char)
  | [], acc => if acc.isEmpty then [] else [acc.reverse]
  | c :: cs, acc =>
    if c = ' ' then
      if acc.isEmpty then fieldsAux cs [] else acc.reverse :: fieldsAux cs []
    else fieldsAux cs (c :: acc)

def fields (l : List Char) : List (List Char) := fieldsAux l []

/-- Value of a hex digit character (both cases), as `strconv` accepts. -/
def hexVal (c : Char) : Option Nat :=
  if '0' ≤ c ∧ c ≤ '9' then some (c.toNat - 48)
  else if 'a' ≤ c ∧ c ≤ 'f' then some (c.toNat - 87)
  else if 'A' ≤ c ∧ c ≤ 'F' then some (c.toNat - 55)
  else none

def decVal (c : Char) : Option Nat :=
  if '0' ≤ c ∧ c ≤ '9' then some (c.toNat - 48) else none

def octVal (c : Char) : Option Nat :=
  if '0' ≤ c ∧ c ≤ '7' then some (c.toNat - 48) else none

/-- The strconv digit loop: left fold `acc ↦ base*acc + digit`, failing on
the first invalid digit. -/
def parseNatCore (base : Nat) (val : Char → Option Nat) :
    List Char → Nat → Option Nat
  | [], acc => some acc
  | c :: cs, acc =>
    match val c with
    | none => none
    | some d => parseNatCore base val cs (base * acc + d)

/-- `strconv.ParseUint(s, 0, 64)`: base auto-detection (`0x`/`0X` hex with
nonempty digits, a leading `0` octal, otherwise decimal), no sign, error
on empty input or invalid digit.  Go detects overflow digit by digit; in
this wraparound-free model that is exactly a final bound check. -/
def parseUint64Base0 (s : List Char) : Option Nat :=
  match s with
  | [] => none
  | c :: cs =>
    let core :=
      if c = '0' then
        match cs with
        | [] => some 0
        | c2 :: cs2 =>
          if c2 = 'x' ∨ c2 = 'X' then
            if cs2.isEmpty then none else parseNatCore 16 hexVal cs2 0
          else parseNatCore 8 octVal cs 0
      else parseNatCore 10 decVal (c :: cs) 0
    match core with
    | none => none
    | some n => if n < 2 ^ 64 then some n else none

/-- `strconv.ParseInt(s, 10, 64)` (also `strconv.Atoi` on a 64-bit
platform): optional sign, decimal digits, int64 range check. -/
def parseInt64Dec (s : List Char) : Option Int :=
  match s with
  | [] => none
  | c :: cs =>
    let neg := c = '-'
    let ds := if c = '-' ∨ c = '+' then cs else c :: cs
    if ds.isEmpty then none
    else
      match parseNatCore 10 decVal ds 0 with
      | none => none
      | some n =>
        if neg then
          if n ≤ 2 ^ 63 then some (-(n : Int)) else none
        else
          if n ≤ 2 ^ 63 - 1 then some (n : Int) else none

/-- The tool's `sample` struct (part_000 lines 68-72): pc is a uint64,
speedup an int, nsPerOp an int64. -/
structure sample where
  pc : Nat
  speedup : Int
  nsPerOp : Int
deriving DecidableEq, Repr

/-- `readProfFile` (part_000 lines 80-116) on the list of input lines:
skip empty lines and lines starting with `#`; otherwise split into
fields, require exactly 3, and parse pc (ParseUint base 0), speedup
(Atoi) and nsPerOp (ParseInt base 10); any failure aborts the whole
parse (`none`). -/
def readProfFile : List (List Char) → Option (List sample)
  | [] => some []
  | l :: ls =>
    if l.length < 1 ∨ l.head? = some '#' then readProfFile ls
    else
      match fields l with
      | [f0, f1, f2] =>
        match parseUint64Base0 f0, parseInt64Dec f1, parseInt64Dec f2,
              readProfFile ls with
        | some pc, some sp, some ns, some rest =>
          some ({ pc := pc, speedup := sp, nsPerOp := ns } :: rest)
        | _, _, _, _ => none
      | _ => none

/-- part_000 line 28: `nullexp := samples[0]` — the first record of the
file, whatever its pc or percentage; `none` models the index-out-of-range
panic on an empty record list. -/
def nullexpOf (samples : List sample) : Option sample := samples.head?

/-- part_000 lines 31-36: the per-pc group, in file order (the Go code
appends each sample to `index[s.pc]`, so a group is the subsequence of
samples with that pc). -/
def sampleGroup (samples : List sample) (pc : Nat) : List sample :=
  samples.filter (fun s => s.pc = pc)

/-- part_000 lines 38-40, 74-78: each group is sorted by ascending
`speedup` (`sort.Sort(bySpeedup(s))`; Go's sort is unstable, so only
sortedness and being a permutation are specified — mergeSort is a
deterministic representative). -/
def sortGroup (g : List sample) : List sample :=
  g.mergeSort (fun a b => decide (a.speedup ≤ b.speedup))

/-- part_000 lines 59-61: the relative percent change of a sample against
a baseline record (float64 arithmetic modelled exactly, over ℚ). -/
def relPercent (nullexp s : sample) : ℚ :=
  (((s.nsPerOp : ℚ) - (nullexp.nsPerOp : ℚ)) / (nullexp.nsPerOp : ℚ)) * 100

/-- What `main` prints for one pc group (part_000 lines 50-63): for each
sample of the sorted group, its speedup, its ns/op, and its relative
percent change computed against `nullexp` — which `main` takes to be the
first record of the whole file. -/
def groupOutput (nullexp : sample) (samples : List sample) (pc : Nat) :
    List (Int × Int × ℚ) :=
  (sortGroup (sampleGroup samples pc)).map
    (fun s => (s.speedup, s.nsPerOp, relPercent nullexp s))

/-- `main`'s output for one pc group, threading the `samples[0]` access
(part_000 lines 28, 50-63). -/
def mainGroupOutput (samples : List sample) (pc : Nat) :
    Option (List (Int × Int × ℚ)) :=
  match nullexpOf samples with
  | none => none
  | some nullexp => some (groupOutput nullexp samples pc)

/-- Modelled from the spec (§6), not from the source: the baseline for a
program counter is that pc group's zero-percent record. -/
def specGroupBaseline (samples : List sample) (pc : Nat) : Option sample :=
  (sampleGroup samples pc).find? (fun s => s.speedup = 0)

/-- Modelled from the spec (§6), not from the source: the relative percent
change of a record computed against the zero-percent record of its own pc
group. -/
def specRelPercent (samples : List sample) (pc : Nat) (s : sample) : Option ℚ :=
  (specGroupBaseline samples pc).map (fun b => relPercent b s)

/-! ## Auxiliary definitions for the claims -/

/-- The sampling interval, in nanoseconds, implied by
`runtime.SetCPUProfileRate(profilingHz)` (causal.go line 42): the spec's
fixed reference time unit. -/
def samplingIntervalNs : Nat := 10 ^ 9 / profilingHz

/-- The measurement scenario of claim C5: starting from `resetProgress`,
run `n` progress units; unit `k` begins at wall time `startT k` with the
delay counter at `startD k`, has true cost `c`, and the actuator injects
exactly `D` nanoseconds of recorded delay during it (so it ends at wall
time `startT k + (c + D)` with the counter at `startD k + D`). -/
def runUnits (c D : Int) (startT startD : Nat → Int) : Nat → ProgressState
  | 0 => resetProgress
  | Nat.succ n =>
    Progress.Stop (StartProgress (startT n) (startD n))
      (startT n + (c + D)) (startD n + D) (runUnits c D startT startD n)

/-- Value of a big-endian digit list under an accumulator, mirroring the
fold performed by `parseNatCore`. -/
def beVal (base : Nat) : List Nat → Nat → Nat
  | [], acc => acc
  | d :: ds, acc => beVal base ds (base * acc + d)

/-- The slowdown levels corresponding to the stored permutation elements:
the scheduler returns element + 1 (causal.go line 138). -/
def levelsOf (rem : List Nat) : List Int := rem.map (fun r => Int.ofNat r + 1)

/-! ## Scheduler lemmas -/

theorem selectExperiment_nil_noNull (c : Bool) (rem : List Nat) :
    selectExperiment c { hasNull := false, remaining := rem } =
      (if c then (0, { hasNull := true, remaining := rem }) else
        match rem with
        | [] => (0, { hasNull := true, remaining := ([] : List Nat) })
        | r :: rest => ((r : Int) + 1, { hasNull := false, remaining := rest })) := by
  cases c <;> cases rem <;> rfl

/-- Once the baseline has run, the scheduler just drains `remaining`, and a
session run from such a state lists exactly the levels `r+1` for the
remaining permutation elements `r`. -/
theorem runSession_hasNull (rem : List Nat) (coins : Nat → Bool) (i fuel : Nat)
    (h : rem.length < fuel) :
    runSession fuel { hasNull := true, remaining := rem } coins i = levelsOf rem := by
  induction rem generalizing i fuel with
  | nil =>
    obtain ⟨f, rfl⟩ : ∃ f, fuel = f + 1 := ⟨fuel - 1, by omega⟩
    rfl
  | cons r rest ih =>
    obtain ⟨f, rfl⟩ : ∃ f, fuel = f + 1 := ⟨fuel - 1, by omega⟩
    have hlen : rest.length < f := by
      simp only [List.length_cons] at h; omega
    have hsel : selectExperiment (coins i) { hasNull := true, remaining := r :: rest } =
        (Int.ofNat r + 1, { hasNull := true, remaining := rest }) := by
      cases hc : coins i <;> rfl
    have hne : ¬(Int.ofNat r + 1 = -1) := by rw [Int.ofNat_eq_natCast]; omega
    simp only [runSession, hsel, hne, ite_false, Bool.not_true, Bool.false_eq_true, if_false]
    rw [ih i f hlen]
    rfl

/-- A full session starting from a fresh experiment state yields, as a
multiset, the baseline 0 together with `r+1` for every element `r` of the
initial permutation. -/
theorem runSession_multiset (rem : List Nat) (coins : Nat → Bool) (i fuel : Nat)
    (h : rem.length + 1 < fuel) :
    (runSession fuel { hasNull := false, remaining := rem } coins i : Multiset Int) =
      0 ::ₘ (levelsOf rem : Multiset Int) := by
  induction rem generalizing i fuel with
  | nil =>
    obtain ⟨f, rfl⟩ : ∃ f, fuel = f + 1 := ⟨fuel - 1, by omega⟩
    have hsel : selectExperiment (coins i) { hasNull := false, remaining := ([] : List Nat) } =
        (0, { hasNull := true, remaining := ([] : List Nat) }) := by
      cases hc : coins i <;> rfl
    have hne : ¬((0 : Int) = -1) := by omega
    simp only [runSession, hsel, hne, ite_false, Bool.not_false]
    rw [if_pos trivial]
    rw [runSession_hasNull ([] : List Nat) coins (i + 1) f (by omega)]
    rfl
  | cons r rest ih =>
    obtain ⟨f, rfl⟩ : ∃ f, fuel = f + 1 := ⟨fuel - 1, by omega⟩
    have hlen : rest.length + 1 < f := by
      simp only [List.length_cons] at h; omega
    cases hc : coins i with
    | true =>
      have hsel : selectExperiment (coins i) { hasNull := false, remaining := r :: rest } =
          (0, { hasNull := true, remaining := r :: rest }) := by
        rw [hc]; rfl
      have hne : ¬((0 : Int) = -1) := by omega
      simp only [runSession, hsel, hne, ite_false, Bool.not_false]
      rw [if_pos trivial]
      rw [runSession_hasNull (r :: rest) coins (i + 1) f
        (by simp only [List.length_cons]; omega)]
      rfl
    | false =>
      have hsel : selectExperiment (coins i) { hasNull := false, remaining := r :: rest } =
          (Int.ofNat r + 1, { hasNull := false, remaining := rest }) := by
        rw [hc]; rfl
      have hne : ¬(Int.ofNat r + 1 = -1) := by rw [Int.ofNat_eq_natCast]; omega
      simp only [runSession, hsel, hne, ite_false, Bool.not_false]
      rw [if_pos trivial]
      have hlv : levelsOf (r :: rest) = (Int.ofNat r + 1) :: levelsOf rest := rfl
      rw [hlv]
      have hcons : ((Int.ofNat r + 1) ::
          runSession f { hasNull := false, remaining := rest } coins (i + 1) : Multiset Int) =
          (Int.ofNat r + 1) ::ₘ
            (runSession f { hasNull := false, remaining := rest } coins (i + 1) : Multiset Int) := by
        simp
      rw [hcons, ih (i + 1) f hlen, Multiset.cons_swap]
      simp

/-! ## Claim C1 -/

/-- C1: for every call site, across a full session in which the scheduler is
consulted until it reports exhaustion, the multiset of delay levels returned
by selectExperiment is exactly {0, 1, ..., 20}: the baseline 0 once, each
slowdown level 1..20 once (the elements of the random permutation created
when the call site is first seen, plus one), and no level repeated.  22
consultations reach exhaustion: 21 produce levels and the 22nd reports -1. -/
theorem claim_C1_full_session_levels (perm : List Nat) (coins : Nat → Bool)
    (h : perm.Perm (List.range 20)) :
    (runSession 22 (newExperiment perm) coins 0 : Multiset Int) =
      ((List.range 21).map (fun n => Int.ofNat n) : Multiset Int) := by
  have hlen : perm.length = 20 := by simpa using h.length_eq
  have hrun := runSession_multiset perm coins 0 22 (by omega)
  have hmap : (List.range 21).map (fun n => Int.ofNat n) =
      0 :: levelsOf (List.range 20) := by
    rw [List.range_succ_eq_map]
    simp [levelsOf, List.map_map, Function.comp_def, Int.ofNat_succ]
  calc (runSession 22 (newExperiment perm) coins 0 : Multiset Int)
      = 0 ::ₘ (levelsOf perm : Multiset Int) := hrun
    _ = ((0 :: levelsOf perm : List Int) : Multiset Int) := by simp
    _ = ((List.range 21).map (fun n => Int.ofNat n) : Multiset Int) := by
        rw [Multiset.coe_eq_coe, hmap]
        exact List.Perm.cons 0 (h.map _)

theorem claim_C1_full_session_levels_witness :
    (List.range 20).Perm (List.range 20) ∧
      (runSession 22 (newExperiment (List.range 20)) (fun _ => false) 0 : Multiset Int) =
        ((List.range 21).map (fun n => Int.ofNat n) : Multiset Int) :=
  ⟨List.Perm.refl _,
    claim_C1_full_session_levels (List.range 20) (fun _ => false) (List.Perm.refl _)⟩

/-! ## Claim C2 -/

/-- C2: the selection policy of selectExperiment, stated case by case.  The
50% chance is the fair coin `c` (the value of rand.Intn(2) == 1): while the
baseline has not run, a true coin returns the baseline; otherwise the head
of the permuted slowdown sequence (as level head+1) is returned and removed;
an empty sequence with the baseline still pending forces the baseline; once
the baseline has run and the sequence is empty, the call returns the
sentinel -1 and leaves the state unchanged, so every subsequent call also
returns -1. -/
theorem claim_C2_selection_policy (e : Experiment) (c : Bool) :
    (e.hasNull = false → c = true →
      selectExperiment c e = (0, { e with hasNull := true })) ∧
    (e.hasNull = false → c = false → e.remaining = [] →
      selectExperiment c e = (0, { e with hasNull := true })) ∧
    (∀ r rest, e.remaining = r :: rest → (e.hasNull = true ∨ c = false) →
      selectExperiment c e = (Int.ofNat r + 1, { e with remaining := rest })) ∧
    (e.hasNull = true → e.remaining = [] → selectExperiment c e = (-1, e)) := by
  obtain ⟨hn, rem⟩ := e
  refine ⟨?_, ?_, ?_, ?_⟩
  · rintro rfl rfl
    cases rem <;> rfl
  · rintro rfl rfl hrem
    have h2 : rem = [] := hrem
    subst h2
    rfl
  · rintro r rest hrem hor
    have h2 : rem = r :: rest := hrem
    subst h2
    rcases hor with h1 | h1
    · have h3 : hn = true := h1
      subst h3
      cases c <;> rfl
    · have h3 : c = false := h1
      subst h3
      cases hn <;> rfl
  · rintro h1 hrem
    have h2 : hn = true := h1
    have h3 : rem = [] := hrem
    subst h2
    subst h3
    cases c <;> rfl

theorem claim_C2_selection_policy_witness :
    selectExperiment true { hasNull := false, remaining := [3] } =
        (0, { hasNull := true, remaining := [3] }) ∧
      selectExperiment false { hasNull := false, remaining := [] } =
        (0, { hasNull := true, remaining := [] }) ∧
      selectExperiment false { hasNull := true, remaining := [4, 5] } =
        (5, { hasNull := true, remaining := [5] }) ∧
      selectExperiment false { hasNull := true, remaining := [] } =
        (-1, { hasNull := true, remaining := [] }) := by
  refine ⟨?_, ?_, ?_, ?_⟩
  · exact (claim_C2_selection_policy { hasNull := false, remaining := [3] } true).1 rfl rfl
  · exact (claim_C2_selection_policy
      { hasNull := false, remaining := [] } false).2.1 rfl rfl rfl
  · simpa using (claim_C2_selection_policy
      { hasNull := true, remaining := [4, 5] } false).2.2.1 4 [5] rfl (Or.inl rfl)
  · exact (claim_C2_selection_policy
      { hasNull := true, remaining := [] } false).2.2.2 rfl rfl

/-! ## Claim C3 -/

/-- C3 counterexample: the claim says that whenever Start is called while a
generic CPU-sampling profiler is active it returns the "conflicting
profiler" error.  When a causal-profiling session is also already active
(profiling = true and pprofActive = true), Start instead returns the
"already profiling" error — the causal-session check has precedence. -/
theorem claim_C3_counterexample :
    (start true { profiling := true, doneMade := true, sampleRate := 1000, writerRunning := true }).1 =
      Except.error ("causal profiling already in use") ∧
    ("causal profiling already in use" : String) ≠ "cpu profiling already in use" := by
  exact ⟨rfl, by decide⟩

/-- C3 amended: whenever Start is called while a causal-profiling session is
already active it synchronously returns the "already profiling" error;
whenever it is called while no causal session is active but a generic
CPU-sampling profiler is, it synchronously returns the "conflicting
profiler" error; in both failure cases the session does not become active,
the sample rate is not changed, and no background loop is launched. -/
theorem claim_C3_start_error_no_mutation (pprofActive : Bool) (s : CpuState) :
    (s.profiling = true →
      (start pprofActive s).1 = Except.error ("causal profiling already in use") ∧
      (start pprofActive s).2.profiling = s.profiling ∧
      (start pprofActive s).2.sampleRate = s.sampleRate ∧
      (start pprofActive s).2.writerRunning = s.writerRunning) ∧
    (s.profiling = false → pprofActive = true →
      (start pprofActive s).1 = Except.error ("cpu profiling already in use") ∧
      (start pprofActive s).2.profiling = s.profiling ∧
      (start pprofActive s).2.sampleRate = s.sampleRate ∧
      (start pprofActive s).2.writerRunning = s.writerRunning) := by
  obtain ⟨p, d, r, w⟩ := s
  constructor
  · intro hp
    have hp2 : p = true := hp
    subst hp2
    cases d <;> exact ⟨rfl, rfl, rfl, rfl⟩
  · intro hp ha
    have hp2 : p = false := hp
    subst hp2
    subst ha
    cases d <;> exact ⟨rfl, rfl, rfl, rfl⟩

theorem claim_C3_start_error_no_mutation_witness :
    ((start false { profiling := true, doneMade := false, sampleRate := 7, writerRunning := false }).1 =
      Except.error ("causal profiling already in use") ∧
      (start false { profiling := true, doneMade := false, sampleRate := 7, writerRunning := false }).2.profiling = true ∧
      (start false { profiling := true, doneMade := false, sampleRate := 7, writerRunning := false }).2.sampleRate = 7 ∧
      (start false { profiling := true, doneMade := false, sampleRate := 7, writerRunning := false }).2.writerRunning = false) ∧
    ((start true { profiling := false, doneMade := false, sampleRate := 7, writerRunning := false }).1 =
      Except.error ("cpu profiling already in use") ∧
      (start true { profiling := false, doneMade := false, sampleRate := 7, writerRunning := false }).2.profiling = false ∧
      (start true { profiling := false, doneMade := false, sampleRate := 7, writerRunning := false }).2.sampleRate = 7 ∧
      (start true { profiling := false, doneMade := false, sampleRate := 7, writerRunning := false }).2.writerRunning = false) :=
  ⟨(claim_C3_start_error_no_mutation false
      { profiling := true, doneMade := false, sampleRate := 7, writerRunning := false }).1 rfl,
   (claim_C3_start_error_no_mutation true
      { profiling := false, doneMade := false, sampleRate := 7, writerRunning := false }).2 rfl rfl⟩

/-! ## Claim C5 -/

/-- The accumulator state after `n` units of the C5 scenario. -/
theorem runUnits_closed (c D : Int) (startT startD : Nat → Int) (n : Nat) :
    runUnits c D startT startD n = { progress := (n : Int), progresstime := (n : Int) * c } := by
  induction n with
  | zero => simp [runUnits, resetProgress]
  | succ n ih =>
    simp only [runUnits, ih, Progress.Stop, StartProgress, ProgressState.mk.injEq]
    constructor
    · push_cast; ring
    · push_cast; ring

/-- C5: EndUnit (Progress.Stop) records elapsed wall time minus the increase
of the accumulated-delay counter since BeginUnit (StartProgress), and adds
one unit; consequently, if the actuator injects exactly D nanoseconds of
recorded delay during each unit whose true cost is c, the mean returned by
compareprogress over any positive number of such units equals c, whatever D
is. -/
theorem claim_C5_delay_subtraction_exact (p : Progress) (now delayCounter : Int)
    (s : ProgressState) (c D : Int) (startT startD : Nat → Int) (n : Nat)
    (hn : 0 < n) :
    (Progress.Stop p now delayCounter s).progresstime =
        s.progresstime + ((now - p.startTime) - (delayCounter - p.startDelay)) ∧
    (Progress.Stop p now delayCounter s).progress = s.progress + 1 ∧
    compareprogress (runUnits c D startT startD n) = c := by
  refine ⟨rfl, rfl, ?_⟩
  rw [runUnits_closed]
  have hne : ((n : Int)) ≠ 0 := by
    simpa using Nat.pos_iff_ne_zero.mp hn
  simp only [compareprogress, hne, if_false, if_neg hne]
  exact Int.mul_tdiv_cancel_left _ hne

theorem claim_C5_delay_subtraction_exact_witness :
    (0 : Nat) < 3 ∧
      ((Progress.Stop (StartProgress 0 0) 5 6 resetProgress).progresstime =
          resetProgress.progresstime + ((5 - 0) - (6 - 0)) ∧
        (Progress.Stop (StartProgress 0 0) 5 6 resetProgress).progress =
          resetProgress.progress + 1 ∧
        compareprogress (runUnits 7 11 (fun k => 100 * k) (fun k => 50 * k) 3) = 7) :=
  ⟨by decide,
    by
      simpa using claim_C5_delay_subtraction_exact (StartProgress 0 0) 5 6
        resetProgress 7 11 (fun k => 100 * k) (fun k => 50 * k) 3 (by decide)⟩

/-! ## Claim C6 -/

/-- C6: an experiment during which zero progress units completed makes
compareprogress return the no-data sentinel and the profiling loop emit no
record (and the loop has no error path: the iteration just continues); an
experiment with at least one unit and zero total adjusted duration is
emitted as a record whose measured ns/op is 0. -/
theorem claim_C6_zero_units_dropped (pc lvl : Nat) (t n : Int) :
    (compareprogress { progress := 0, progresstime := t } = -1 ∧
      writerEmit pc lvl { progress := 0, progresstime := t } = none) ∧
    (1 ≤ n →
      writerEmit pc lvl { progress := n, progresstime := 0 } =
        some { pc := pc, percentage := delaypersample lvl / delayPerPercent,
               ns := 0 }) := by
  constructor
  · constructor
    · rfl
    · rfl
  · intro hn
    have hne : n ≠ 0 := by omega
    have hmean : compareprogress { progress := n, progresstime := 0 } = 0 := by
      simp only [compareprogress, hne, if_neg hne]
      exact Int.zero_tdiv n
    simp only [writerEmit, hmean]
    norm_num

theorem claim_C6_zero_units_dropped_witness :
    (1 : Int) ≤ 2 ∧
      writerEmit 64 4 { progress := 2, progresstime := 0 } =
        some { pc := 64, percentage := delaypersample 4 / delayPerPercent, ns := 0 } :=
  ⟨by decide, (claim_C6_zero_units_dropped 64 4 0 2).2 (by decide)⟩

/-! ## Claim C8 -/

/-- C8: for every slowdown level L in 0..20, the per-sample delay installed
equals L times 5% of the reference unit (the sampling interval,
10^9/profilingHz nanoseconds); at level 20 the delay is exactly one full
sampling interval; and the percentage figure written into the emitted
record (delaypersample/delayPerPercent) equals L*5. -/
theorem claim_C8_delay_magnitude (L : Nat) (_hL : L ≤ 20) :
    delaypersample L = L * (samplingIntervalNs * 5 / 100) ∧
    delaypersample 20 = samplingIntervalNs ∧
    delaypersample L / delayPerPercent = L * 5 := by
  refine ⟨?_, by decide, ?_⟩
  · simp only [delaypersample, delayPerPercent, profilingHz, samplingIntervalNs]
    norm_num
  · simp only [delaypersample, delayPerPercent, profilingHz]
    norm_num
    omega

theorem claim_C8_delay_magnitude_witness :
    (20 : Nat) ≤ 20 ∧
      (delaypersample 20 = 20 * (samplingIntervalNs * 5 / 100) ∧
        delaypersample 20 = samplingIntervalNs ∧
        delaypersample 20 / delayPerPercent = 20 * 5) :=
  ⟨by decide, claim_C8_delay_magnitude 20 (by decide)⟩

/-! ## Claim C9 -/

/-- C9 (implicit): readProfFile applied to input containing only blank
lines and comment lines returns the empty record list with no error; the
consumer (main) then takes samples[0] as the baseline, which on the empty
list is an out-of-bounds access (modelled: nullexpOf/mainGroupOutput give
none) rather than a descriptive parse error; and on a nonempty list the
baseline is simply the first data record of the file, whatever its pc or
percentage. -/
theorem claim_C9_comment_only_file (lines : List (List Char))
    (h : ∀ l ∈ lines, l.length < 1 ∨ l.head? = some '#') :
    readProfFile lines = some [] ∧
    nullexpOf [] = none ∧
    (∀ pc, mainGroupOutput [] pc = none) ∧
    (∀ s rest, nullexpOf (s :: rest) = some s) := by
  refine ⟨?_, rfl, fun pc => rfl, fun s rest => rfl⟩
  induction lines with
  | nil => rfl
  | cons l ls ih =>
    have hl := h l (List.mem_cons_self l ls)
    have hrec : readProfFile (l :: ls) = readProfFile ls := by
      simp only [readProfFile, if_pos hl]
    rw [hrec]
    exact ih (fun x hx => h x (List.mem_cons_of_mem l hx))

theorem claim_C9_comment_only_file_witness :
    (∀ l ∈ [['#', 'a'], ([] : List Char)], l.length < 1 ∨ l.head? = some '#') ∧
      readProfFile [['#', 'a'], ([] : List Char)] = some [] :=
  ⟨by decide,
    (claim_C9_comment_only_file [['#', 'a'], ([] : List Char)] (by decide)).1⟩

/-! ## Claim C10 -/

/-- C10 (implicit): the no-data sentinel of compareprogress is the integer
-1, and the same value arises with units completed whenever the truncated
mean of the adjusted durations is -1 — possible because a unit's adjusted
duration (elapsed wall time minus the accumulated-delay delta) can be
negative, e.g. a unit spanning wall time 5 while the global delay counter
grew by 6; the writer then drops the experiment exactly as if zero units
had completed. -/
theorem claim_C10_sentinel_collision (t : Int) (pc lvl : Nat) :
    compareprogress { progress := 0, progresstime := t } = -1 ∧
    writerEmit pc lvl { progress := 0, progresstime := t } = none ∧
    (Progress.Stop (StartProgress 0 0) 5 6 resetProgress).progress = 1 ∧
    (Progress.Stop (StartProgress 0 0) 5 6 resetProgress).progresstime = -1 ∧
    compareprogress (Progress.Stop (StartProgress 0 0) 5 6 resetProgress) = -1 ∧
    writerEmit pc lvl (Progress.Stop (StartProgress 0 0) 5 6 resetProgress) = none :=
  ⟨rfl, rfl, rfl, rfl, rfl, rfl⟩

/-! ## Claim C4 -/

/-- C4 counterexample: with records for two program counters, the percent
change printed for the record (pc 2, 5%, 3000ns) is computed against the
first record of the whole file (pc 1, 0%, 1000ns), giving +200%, and not
against the zero-percent record of pc 2's own group (2000ns), which would
give +50%.  The claim's formula (baseline from the same group) therefore
does not describe the code. -/
theorem claim_C4_counterexample :
    mainGroupOutput [{ pc := 1, speedup := 0, nsPerOp := 1000 },
        { pc := 2, speedup := 0, nsPerOp := 2000 },
        { pc := 2, speedup := 5, nsPerOp := 3000 }] 2 =
      some [((0 : Int), (2000 : Int), (100 : ℚ)), ((5 : Int), (3000 : Int), (200 : ℚ))] ∧
    specRelPercent [{ pc := 1, speedup := 0, nsPerOp := 1000 },
        { pc := 2, speedup := 0, nsPerOp := 2000 },
        { pc := 2, speedup := 5, nsPerOp := 3000 }] 2
        { pc := 2, speedup := 5, nsPerOp := 3000 } = some 50 ∧
    ((200 : ℚ) ≠ 50) := by
  have hg : sampleGroup [{ pc := 1, speedup := 0, nsPerOp := 1000 },
      { pc := 2, speedup := 0, nsPerOp := 2000 },
      { pc := 2, speedup := 5, nsPerOp := 3000 }] 2 =
      [{ pc := 2, speedup := 0, nsPerOp := 2000 },
       { pc := 2, speedup := 5, nsPerOp := 3000 }] := by
    simp [sampleGroup]
  have hsort : sortGroup (sampleGroup [{ pc := 1, speedup := 0, nsPerOp := 1000 },
      { pc := 2, speedup := 0, nsPerOp := 2000 },
      { pc := 2, speedup := 5, nsPerOp := 3000 }] 2) =
      [{ pc := 2, speedup := 0, nsPerOp := 2000 },
       { pc := 2, speedup := 5, nsPerOp := 3000 }] := by
    rw [hg, sortGroup]
    exact List.mergeSort_of_sorted (by decide)
  refine ⟨?_, ?_, by norm_num⟩
  · simp only [mainGroupOutput, nullexpOf, List.head?, groupOutput, hsort,
      List.map_cons, List.map_nil]
    norm_num [relPercent]
  · rw [specRelPercent, specGroupBaseline, hg]
    norm_num [List.find?, relPercent]

/-- C4 amended: the reader groups records by program counter (each group is
the subsequence of file records with that pc), sorts each group by
ascending percentage (the printed group is a permutation of the group,
pairwise sorted by speedup), and computes each record's relative percent
change as (ns_per_op − baseline_ns_per_op) / baseline_ns_per_op × 100 —
but baseline_ns_per_op is taken from the first record of the whole file
(samples[0]), not from the zero-percent record of the record's own group. -/
theorem claim_C4_reader_global_baseline (samples : List sample) (s0 : sample)
    (rest : List sample) (pc : Nat) (h : samples = s0 :: rest) :
    (sortGroup (sampleGroup samples pc)).Perm
        (samples.filter (fun s => s.pc = pc)) ∧
    List.Pairwise (fun a b : sample => a.speedup ≤ b.speedup)
      (sortGroup (sampleGroup samples pc)) ∧
    mainGroupOutput samples pc =
      some ((sortGroup (sampleGroup samples pc)).map
        (fun s => (s.speedup, s.nsPerOp,
          ((s.nsPerOp : ℚ) - (s0.nsPerOp : ℚ)) / (s0.nsPerOp : ℚ) * 100))) := by
  refine ⟨List.mergeSort_perm _ _, ?_, ?_⟩
  · have hpair := @List.sorted_mergeSort sample
      (fun a b : sample => decide (a.speedup ≤ b.speedup))
      (fun a b c hab hbc => by
        simp only [decide_eq_true_eq] at *
        exact le_trans hab hbc)
      (fun a b => by
        simp only [Bool.or_eq_true, decide_eq_true_eq]
        exact le_total _ _)
      (sampleGroup samples pc)
    exact hpair.imp (fun hx => by simpa using hx)
  · subst h
    rfl

theorem claim_C4_reader_global_baseline_witness :
    ([{ pc := 1, speedup := 0, nsPerOp := 10 }] : List sample) =
        { pc := 1, speedup := 0, nsPerOp := 10 } :: [] ∧
      mainGroupOutput [{ pc := 1, speedup := 0, nsPerOp := 10 }] 1 =
        some ((sortGroup (sampleGroup [{ pc := 1, speedup := 0, nsPerOp := 10 }] 1)).map
          (fun s => (s.speedup, s.nsPerOp,
            ((s.nsPerOp : ℚ) - ((10 : Int) : ℚ)) / (((10 : Int)) : ℚ) * 100))) :=
  ⟨rfl,
    (claim_C4_reader_global_baseline [{ pc := 1, speedup := 0, nsPerOp := 10 }]
      { pc := 1, speedup := 0, nsPerOp := 10 } [] 1 rfl).2.2⟩

/-! ## Digit and parsing lemmas for the round trip -/

theorem parseNatCore_map (b : Nat) (val : Char → Option Nat) (chr : Nat → Char)
    (l : List Nat) (hl : ∀ d ∈ l, val (chr d) = some d) (acc : Nat) :
    parseNatCore b val (l.map chr) acc = some (beVal b l acc) := by
  induction l generalizing acc with
  | nil => rfl
  | cons d ds ih =>
    simp only [List.map_cons, parseNatCore, hl d (List.mem_cons_self d ds)]
    exact ih (fun x hx => hl x (List.mem_cons_of_mem d hx)) (b * acc + d)

theorem beVal_eq_ofDigits (b : Nat) (l : List Nat) (acc : Nat) :
    beVal b l acc = acc * b ^ l.length + Nat.ofDigits b l.reverse := by
  induction l generalizing acc with
  | nil => simp [beVal]
  | cons d ds ih =>
    simp only [beVal, ih, List.reverse_cons, Nat.ofDigits_append, List.length_cons,
      List.length_reverse, Nat.ofDigits_cons, Nat.ofDigits_nil]
    ring

theorem parseNatCore_digits (b : Nat) (hb : 1 < b) (val : Char → Option Nat)
    (chr : Nat → Char) (hchr : ∀ d, d < b → val (chr d) = some d) (n : Nat) :
    parseNatCore b val ((Nat.digits b n).reverse.map chr) 0 = some n := by
  rw [parseNatCore_map b val chr _
    (fun d hd => hchr d (Nat.digits_lt_base hb (List.mem_reverse.mp hd)))]
  rw [beVal_eq_ofDigits]
  simp [Nat.ofDigits_digits]

theorem hexVal_hexDigitChar (d : Nat) (h : d < 16) :
    hexVal (hexDigitChar d) = some d := by
  interval_cases d <;> decide

theorem decVal_decDigitChar (d : Nat) (h : d < 10) :
    decVal (decDigitChar d) = some d := by
  interval_cases d <;> decide

theorem hexDigitChar_ne_space (d : Nat) (h : d < 16) : hexDigitChar d ≠ ' ' := by
  interval_cases d <;> decide

theorem decDigitChar_props (d : Nat) (h : d < 10) :
    decDigitChar d ≠ ' ' ∧ decDigitChar d ≠ '-' ∧ decDigitChar d ≠ '+' := by
  interval_cases d <;> exact ⟨by decide, by decide, by decide⟩

theorem natToHexChars_ne_nil (n : Nat) : natToHexChars n ≠ [] := by
  unfold natToHexChars
  by_cases h : n = 0
  · rw [if_pos h]; simp
  · rw [if_neg h]
    simp [Nat.digits_ne_nil_iff_ne_zero.mpr h]

theorem natToDecChars_ne_nil (n : Nat) : natToDecChars n ≠ [] := by
  unfold natToDecChars
  by_cases h : n = 0
  · rw [if_pos h]; simp
  · rw [if_neg h]
    simp [Nat.digits_ne_nil_iff_ne_zero.mpr h]

theorem mem_natToHexChars (n : Nat) (c : Char) (hc : c ∈ natToHexChars n) :
    ∃ d, d < 16 ∧ c = hexDigitChar d := by
  unfold natToHexChars at hc
  by_cases h : n = 0
  · rw [if_pos h] at hc
    refine ⟨0, by norm_num, ?_⟩
    have hc2 : c = decDigitChar 0 := by simpa using hc
    rw [hc2]; decide
  · rw [if_neg h] at hc
    obtain ⟨d, hd, rfl⟩ := List.mem_map.mp hc
    exact ⟨d, Nat.digits_lt_base (by norm_num) (List.mem_reverse.mp hd), rfl⟩

theorem mem_natToDecChars (n : Nat) (c : Char) (hc : c ∈ natToDecChars n) :
    ∃ d, d < 10 ∧ c = decDigitChar d := by
  unfold natToDecChars at hc
  by_cases h : n = 0
  · rw [if_pos h] at hc
    exact ⟨0, by norm_num, by simpa using hc⟩
  · rw [if_neg h] at hc
    obtain ⟨d, hd, rfl⟩ := List.mem_map.mp hc
    exact ⟨d, Nat.digits_lt_base (by norm_num) (List.mem_reverse.mp hd), rfl⟩

theorem natToHexChars_no_space (n : Nat) : ∀ c ∈ natToHexChars n, c ≠ ' ' := by
  intro c hc
  obtain ⟨d, hd, rfl⟩ := mem_natToHexChars n c hc
  exact hexDigitChar_ne_space d hd

theorem natToDecChars_no_space (n : Nat) : ∀ c ∈ natToDecChars n, c ≠ ' ' := by
  intro c hc
  obtain ⟨d, hd, rfl⟩ := mem_natToDecChars n c hc
  exact (decDigitChar_props d hd).1

theorem intToDecChars_ne_nil (n : Int) : intToDecChars n ≠ [] := by
  unfold intToDecChars
  by_cases h : n < 0
  · rw [if_pos h]; simp
  · rw [if_neg h]; exact natToDecChars_ne_nil _

theorem intToDecChars_no_space (n : Int) : ∀ c ∈ intToDecChars n, c ≠ ' ' := by
  intro c hc
  unfold intToDecChars at hc
  by_cases h : n < 0
  · rw [if_pos h] at hc
    rcases List.mem_cons.mp hc with h1 | h1
    · rw [h1]; decide
    · exact natToDecChars_no_space _ c h1
  · rw [if_neg h] at hc
    exact natToDecChars_no_space _ c hc

theorem parseNatCore_natToHexChars (n : Nat) :
    parseNatCore 16 hexVal (natToHexChars n) 0 = some n := by
  unfold natToHexChars
  by_cases h : n = 0
  · rw [if_pos h, h]; decide
  · rw [if_neg h]
    exact parseNatCore_digits 16 (by norm_num) hexVal hexDigitChar hexVal_hexDigitChar n

theorem parseNatCore_natToDecChars (n : Nat) :
    parseNatCore 10 decVal (natToDecChars n) 0 = some n := by
  unfold natToDecChars
  by_cases h : n = 0
  · rw [if_pos h, h]; decide
  · rw [if_neg h]
    exact parseNatCore_digits 10 (by norm_num) decVal decDigitChar decVal_decDigitChar n

theorem parseUint64Base0_hexShape (t : List Char) :
    parseUint64Base0 ('0' :: 'x' :: t) =
      (match (if t.isEmpty then none else parseNatCore 16 hexVal t 0) with
        | none => none
        | some n => if n < 2 ^ 64 then some n else none) := rfl

theorem isEmpty_false_of_ne_nil {l : List Char} (h : l ≠ []) : l.isEmpty = false := by
  cases l with
  | nil => exact absurd rfl h
  | cons c cs => rfl

theorem parseUint64Base0_natToHexLit (n : Nat) (h : n < 2 ^ 64) :
    parseUint64Base0 (natToHexLit n) = some n := by
  have h1 : natToHexLit n = '0' :: 'x' :: natToHexChars n := rfl
  rw [h1, parseUint64Base0_hexShape,
    isEmpty_false_of_ne_nil (natToHexChars_ne_nil n)]
  simp only [Bool.false_eq_true, if_false, parseNatCore_natToHexChars]
  rw [if_pos h]

theorem parseInt64Dec_minusShape (cs : List Char) :
    parseInt64Dec ('-' :: cs) =
      (if cs.isEmpty then none
       else
        match parseNatCore 10 decVal cs 0 with
        | none => none
        | some n => if n ≤ 2 ^ 63 then some (-(n : Int)) else none) := rfl

theorem parseInt64Dec_noSign (c : Char) (cs : List Char) (h1 : c ≠ '-') (h2 : c ≠ '+') :
    parseInt64Dec (c :: cs) =
      (match parseNatCore 10 decVal (c :: cs) 0 with
        | none => none
        | some n => if n ≤ 2 ^ 63 - 1 then some ((n : Int)) else none) := by
  simp only [parseInt64Dec]
  rw [if_neg (not_or.mpr ⟨h1, h2⟩)]
  simp only [List.isEmpty_cons, Bool.false_eq_true, if_false, if_neg h1]

theorem parseInt64Dec_natToDecChars (n : Nat) (h : n ≤ 2 ^ 63 - 1) :
    parseInt64Dec (natToDecChars n) = some ((n : Int)) := by
  obtain ⟨c, cs, hcons⟩ : ∃ c cs, natToDecChars n = c :: cs := by
    cases hh : natToDecChars n with
    | nil => exact absurd hh (natToDecChars_ne_nil n)
    | cons c cs => exact ⟨c, cs, rfl⟩
  obtain ⟨d, hd, hc⟩ := mem_natToDecChars n c (by rw [hcons]; exact List.mem_cons_self c cs)
  rw [hcons, parseInt64Dec_noSign c cs
    (by rw [hc]; exact (decDigitChar_props d hd).2.1)
    (by rw [hc]; exact (decDigitChar_props d hd).2.2)]
  rw [← hcons, parseNatCore_natToDecChars n]
  simp only [if_pos h]

theorem parseInt64Dec_intToDecChars (n : Int) (h1 : -(2 ^ 63) ≤ n)
    (h2 : n ≤ 2 ^ 63 - 1) :
    parseInt64Dec (intToDecChars n) = some n := by
  by_cases hn : n < 0
  · have hform : intToDecChars n = '-' :: natToDecChars n.natAbs := by
      unfold intToDecChars; rw [if_pos hn]
    rw [hform, parseInt64Dec_minusShape,
      isEmpty_false_of_ne_nil (natToDecChars_ne_nil n.natAbs)]
    simp only [Bool.false_eq_true, if_false, parseNatCore_natToDecChars]
    rw [if_pos (by omega : n.natAbs ≤ 2 ^ 63)]
    congr 1
    omega
  · have hform : intToDecChars n = natToDecChars n.toNat := by
      unfold intToDecChars; rw [if_neg hn]
    rw [hform, parseInt64Dec_natToDecChars n.toNat (by omega)]
    congr 1
    omega

/-! ## Fields lemmas -/

theorem fieldsAux_nospace (l : List Char) (rest acc : List Char)
    (hl : ∀ c ∈ l, c ≠ ' ') :
    fieldsAux (l ++ rest) acc = fieldsAux rest (l.reverse ++ acc) := by
  induction l generalizing acc with
  | nil => simp
  | cons c cs ih =>
    have hc : c ≠ ' ' := hl c (List.mem_cons_self c cs)
    simp only [List.cons_append, fieldsAux, if_neg hc, List.append_eq]
    rw [ih (c :: acc) (fun x hx => hl x (List.mem_cons_of_mem c hx))]
    simp

theorem fieldsAux_space (rest acc : List Char) (hacc : acc ≠ []) :
    fieldsAux (' ' :: rest) acc = acc.reverse :: fieldsAux rest [] := by
  simp only [fieldsAux, if_pos rfl, isEmpty_false_of_ne_nil hacc,
    Bool.false_eq_true, if_false, if_true]

theorem fieldsAux_final (l : List Char) (hne : l ≠ []) (hl : ∀ c ∈ l, c ≠ ' ') :
    fieldsAux l [] = [l] := by
  have h0 : fieldsAux (l ++ []) [] = fieldsAux [] (l.reverse ++ []) :=
    fieldsAux_nospace l [] [] hl
  rw [List.append_nil] at h0
  rw [h0]
  have h1 : l.reverse ++ [] ≠ [] := by simpa using hne
  simp only [fieldsAux, isEmpty_false_of_ne_nil h1, Bool.false_eq_true, if_false]
  simp

theorem fields_of_three (a b c : List Char)
    (haNil : a ≠ []) (haSp : ∀ x ∈ a, x ≠ ' ')
    (hbNil : b ≠ []) (hbSp : ∀ x ∈ b, x ≠ ' ')
    (hcNil : c ≠ []) (hcSp : ∀ x ∈ c, x ≠ ' ') :
    fields (a ++ ' ' :: (b ++ ' ' :: c)) = [a, b, c] := by
  unfold fields
  rw [fieldsAux_nospace a (' ' :: (b ++ ' ' :: c)) [] haSp]
  rw [fieldsAux_space _ _ (by simpa using haNil)]
  rw [fieldsAux_nospace b (' ' :: c) [] hbSp]
  rw [fieldsAux_space _ _ (by simpa using hbNil)]
  rw [fieldsAux_final c hcNil hcSp]
  simp

theorem natToHexLit_no_space (n : Nat) : ∀ c ∈ natToHexLit n, c ≠ ' ' := by
  intro c hc
  unfold natToHexLit at hc
  rcases List.mem_cons.mp hc with h1 | h1
  · rw [h1]; decide
  · rcases List.mem_cons.mp h1 with h2 | h2
    · rw [h2]; decide
    · exact natToHexChars_no_space n c h2

theorem readProfFile_skip (l : List Char) (ls : List (List Char))
    (h : l.length < 1 ∨ l.head? = some '#') :
    readProfFile (l :: ls) = readProfFile ls := by
  simp only [readProfFile, if_pos h]

theorem readProfFile_dataLine (l : List Char) (ls : List (List Char))
    (h : ¬(l.length < 1 ∨ l.head? = some '#')) :
    readProfFile (l :: ls) =
      (match fields l with
       | [f0, f1, f2] =>
         match parseUint64Base0 f0, parseInt64Dec f1, parseInt64Dec f2,
               readProfFile ls with
         | some pc, some sp, some ns, some rest =>
           some ({ pc := pc, speedup := sp, nsPerOp := ns } :: rest)
         | _, _, _, _ => none
       | _ => none) := by
  simp only [readProfFile, if_neg h]

/-! ## Claim C7 -/

/-- C7: for every finite list of experiment records, writing each as the
emitter does (three comment lines followed by the data line
`<hex pc> <percentage> <ns/op>`) and re-parsing the text with readProfFile
yields exactly the original records — equal pc, percentage and ns/op, in
the same order.  The bounds are the machine-integer ranges of the Go
values: pc is a uintptr (< 2^64), the percentage a uint64 printed value
that Atoi must accept as an int (≤ 2^63-1), and ns an int64. -/
theorem claim_C7_emitter_reader_roundtrip (loc : Nat → List Char)
    (rs : List ExperimentRecord)
    (h : ∀ r ∈ rs, r.pc < 2 ^ 64 ∧ r.percentage ≤ 2 ^ 63 - 1 ∧
      -(2 ^ 63) ≤ r.ns ∧ r.ns ≤ 2 ^ 63 - 1) :
    readProfFile (rs.flatMap (fun r => formatRecord (loc r.pc) r)) =
      some (rs.map (fun r =>
        ({ pc := r.pc, speedup := (r.percentage : Int), nsPerOp := r.ns } : sample))) := by
  induction rs with
  | nil => rfl
  | cons r rs ih =>
    obtain ⟨hpc, hperc, hns1, hns2⟩ := h r (List.mem_cons_self r rs)
    have hrest := ih (fun x hx => h x (List.mem_cons_of_mem r hx))
    have hform : (r :: rs).flatMap (fun x => formatRecord (loc x.pc) x) =
        ('#' :: ' ' :: loc r.pc) ::
        ('#' :: (String.toList (" speedup ") ++ natToDecChars r.percentage ++
          [Char.ofNat 37])) ::
        ('#' :: ' ' :: (intToDecChars r.ns ++ String.toList ("ns/op"))) ::
        (natToHexLit r.pc ++ ' ' ::
          (natToDecChars r.percentage ++ ' ' :: intToDecChars r.ns)) ::
        rs.flatMap (fun x => formatRecord (loc x.pc) x) := rfl
    rw [hform]
    rw [readProfFile_skip ('#' :: ' ' :: loc r.pc) _ (Or.inr rfl)]
    rw [readProfFile_skip ('#' :: (String.toList (" speedup ") ++
      natToDecChars r.percentage ++ [Char.ofNat 37])) _ (Or.inr rfl)]
    rw [readProfFile_skip ('#' :: ' ' :: (intToDecChars r.ns ++
      String.toList ("ns/op"))) _ (Or.inr rfl)]
    have hnotskip : ¬((natToHexLit r.pc ++ ' ' ::
        (natToDecChars r.percentage ++ ' ' :: intToDecChars r.ns)).length < 1 ∨
        (natToHexLit r.pc ++ ' ' ::
          (natToDecChars r.percentage ++ ' ' :: intToDecChars r.ns)).head? =
          some '#') := by
      refine not_or.mpr ⟨?_, ?_⟩
      · rw [show natToHexLit r.pc ++ ' ' ::
            (natToDecChars r.percentage ++ ' ' :: intToDecChars r.ns) =
            '0' :: ('x' :: natToHexChars r.pc ++ ' ' ::
              (natToDecChars r.percentage ++ ' ' :: intToDecChars r.ns)) from rfl]
        simp
      · rw [show (natToHexLit r.pc ++ ' ' ::
            (natToDecChars r.percentage ++ ' ' :: intToDecChars r.ns)).head? =
            some '0' from rfl]
        simp
    rw [readProfFile_dataLine _ _ hnotskip]
    rw [fields_of_three (natToHexLit r.pc) (natToDecChars r.percentage)
      (intToDecChars r.ns)
      (by simp [natToHexLit]) (natToHexLit_no_space r.pc)
      (natToDecChars_ne_nil _) (natToDecChars_no_space _)
      (intToDecChars_ne_nil _) (intToDecChars_no_space _)]
    simp only [parseUint64Base0_natToHexLit r.pc hpc,
      parseInt64Dec_natToDecChars r.percentage hperc,
      parseInt64Dec_intToDecChars r.ns hns1 hns2, hrest, List.map_cons]

theorem claim_C7_emitter_reader_roundtrip_witness :
    (∀ r ∈ ([{ pc := 42, percentage := 10, ns := 1500 },
        { pc := 7, percentage := 0, ns := -3 }] : List ExperimentRecord),
      r.pc < 2 ^ 64 ∧ r.percentage ≤ 2 ^ 63 - 1 ∧
        -(2 ^ 63) ≤ r.ns ∧ r.ns ≤ 2 ^ 63 - 1) ∧
    readProfFile (([{ pc := 42, percentage := 10, ns := 1500 },
        { pc := 7, percentage := 0, ns := -3 }] : List ExperimentRecord).flatMap
        (fun r => formatRecord ((fun _ => ([] : List Char)) r.pc) r)) =
      some (([{ pc := 42, percentage := 10, ns := 1500 },
        { pc := 7, percentage := 0, ns := -3 }] : List ExperimentRecord).map
        (fun r =>
          ({ pc := r.pc, speedup := (r.percentage : Int), nsPerOp := r.ns } : sample))) :=
  ⟨by decide,
    claim_C7_emitter_reader_roundtrip (fun _ => ([] : List Char))
      [{ pc := 42, percentage := 10, ns := 1500 },
       { pc := 7, percentage := 0, ns := -3 }] (by decide)⟩

end Causalprof
